import Mathlib

/-!
Verification of the `spiel0meister/json.h` repository: a shallow embedding of
the `ali.h` support library (logging, dynamic array, arena allocator, UTF-8
codec, string view) and of the `json.h` JSON value model, parser and
serializer, together with theorems settling the behavioural claims about them.

Modelling conventions:
- machine integers are `Nat`/`Int`; sizes in the relevant code never overflow;
- C `double` values are modelled as exact unreduced rationals (`CDouble`),
  faithful whenever the decimal text is exactly representable (true for every
  number appearing in the claims);
- functions that print are modelled as returning the emitted byte sequence;
- fallible C functions returning `false`/`NULL` are modelled with `Option`;
- unbounded C loops take a fuel argument; exhausting fuel is distinguished
  from a reported failure, so that non-termination is expressible.
-/

-- ### Character classification (C locale, as used by ali.h and json.h)

/-- C `isspace`: space, tab, newline, vertical tab, form feed, carriage return. -/
def c_isspace (c : Char) : Bool := c.toNat == 32 || (9 ≤ c.toNat && c.toNat ≤ 13)

/-- C `isdigit`. -/
def c_isdigit (c : Char) : Bool := 48 ≤ c.toNat && c.toNat ≤ 57

/-- C `isalpha`. -/
def c_isalpha (c : Char) : Bool :=
  (65 ≤ c.toNat && c.toNat ≤ 90) || (97 ≤ c.toNat && c.toNat ≤ 122)

-- ### ali_log (src/ali.h lines 128-155, 380-408)

inductive AliLogLevel where
  | LOG_INFO
  | LOG_WARN
  | LOG_ERROR
deriving DecidableEq

/-- Numeric value of the `AliLogLevel` enum (`LOG_INFO = 0`, then 1, 2). -/
def logLevelNat : AliLogLevel → Nat
  | .LOG_INFO => 0
  | .LOG_WARN => 1
  | .LOG_ERROR => 2

/-- `loglevel_to_str` table from ali.h. -/
def loglevel_to_str : AliLogLevel → List Char
  | .LOG_INFO => ("INFO").toList
  | .LOG_WARN => ("WARN").toList
  | .LOG_ERROR => ("ERROR").toList

/-- `ali_log_log(level, fmt, ...)` with the already-formatted message `msg`,
under the configured global minimum `minLevel` (`ali_global_loglevel`).
Returns the bytes written to the sink: the C emits only when
`ali_global_loglevel >= level`. -/
def ali_log_log (minLevel level : AliLogLevel) (msg : List Char) : List Char :=
  if logLevelNat minLevel ≥ logLevelNat level then
    ('[' :: loglevel_to_str level) ++ (']' :: ' ' :: msg) ++ ['\n']
  else []

-- ### ali_utf8 (src/ali.h lines 598-722)

/-- `ali_codepoint_size`. -/
def ali_codepoint_size (cp : Nat) : Nat :=
  if cp > 0x10FFFF then 0
  else if cp > 0xFFFF then 4
  else if cp > 0x07FF then 3
  else if cp > 0x007F then 2
  else 1

/-- `ali_codepoint_to_utf8`: the bytes written into the static buffer
(`none` models the C returning `NULL` for an invalid codepoint; the trailing
NUL terminator is not part of the encoded bytes). -/
def ali_codepoint_to_utf8 (cp : Nat) : Option (List Nat) :=
  let size := ali_codepoint_size cp
  if size = 4 then
    some [0xF0 ||| ((cp >>> 18) &&& 0x07), 0x80 ||| ((cp >>> 12) &&& 0x3F),
          0x80 ||| ((cp >>> 6) &&& 0x3F), 0x80 ||| (cp &&& 0x3F)]
  else if size = 3 then
    some [0xE0 ||| ((cp >>> 12) &&& 0x0F), 0x80 ||| ((cp >>> 6) &&& 0x3F),
          0x80 ||| (cp &&& 0x3F)]
  else if size = 2 then
    some [0xC0 ||| ((cp >>> 6) &&& 0x1F), 0x80 ||| (cp &&& 0x3F)]
  else if size = 1 then
    some [cp]
  else none

/-- `ali_utf8c_to_codepoint`: classifies the lead byte and reconstructs the
codepoint, returning it with the consumed size.  The masks on the lead byte
are exactly those of the source (`0x1F` in the 2-, 3- and 4-byte branches).
`none` models the unrecognized-lead-byte case (the C returns the sentinel
`(ali_utf8codepoint)-1` and leaves the size unset). -/
def ali_utf8c_to_codepoint (bs : List Nat) : Option (Nat × Nat) :=
  let b0 := bs.getD 0 0
  let b1 := bs.getD 1 0
  let b2 := bs.getD 2 0
  let b3 := bs.getD 3 0
  if b0 &&& 0x80 = 0x00 then
    some (b0, 1)
  else if b0 &&& 0xE0 = 0xC0 then
    some (((b0 &&& 0x1F) <<< 6) ||| (b1 &&& 0x3F), 2)
  else if b0 &&& 0xF0 = 0xE0 then
    some (((b0 &&& 0x1F) <<< 12) ||| ((b1 &&& 0x3F) <<< 6) ||| (b2 &&& 0x3F), 3)
  else if b0 &&& 0xF8 = 0xF0 then
    some (((b0 &&& 0x1F) <<< 18) ||| ((b1 &&& 0x3F) <<< 12) |||
          ((b2 &&& 0x3F) <<< 6) ||| (b3 &&& 0x3F), 4)
  else none

/-- Encode then decode, as in spec property 5. -/
def utf8RoundTrip (cp : Nat) : Option (Nat × Nat) :=
  match ali_codepoint_to_utf8 cp with
  | some bs => ali_utf8c_to_codepoint bs
  | none => none

-- ### ali_sv (src/ali.h lines 725-763)

/-- `ali_sv_chop_by_c(self, c)`; the view is its character list, the result is
(returned chop, remainder of the view).  For an empty view the C reads one
byte past the view but `ali_sv_step` leaves it unchanged, so the result is an
empty chop and an unchanged (empty) remainder. -/
def ali_sv_chop_by_c : List Char → Char → List Char × List Char
  | [], _ => ([], [])
  | x :: xs, c =>
    if x = c then
      ([x], xs)
    else
      match xs with
      | [] => ([x], [])
      | _ :: _ =>
        let r := ali_sv_chop_by_c xs c
        (x :: r.1, r.2)

-- ### ali_da (src/ali.h lines 157-188, 410-443)

def ALI_DA_DEFAULT_INIT_CAPACITY : Nat := 8

/-- The out-of-band dynamic array header plus its element buffer.  A handle is
`Option (AliDaHeader α)`, `none` being the `NULL` handle. -/
structure AliDaHeader (α : Type) where
  count : Nat
  capacity : Nat
  items : List α
deriving DecidableEq

/-- `ali_da_get_header_with_size`: a `NULL` handle yields a fresh header with
the default initial capacity 8 and count 0. -/
def ali_da_get_header {α : Type} (da : Option (AliDaHeader α)) : AliDaHeader α :=
  match da with
  | none => ⟨0, ALI_DA_DEFAULT_INIT_CAPACITY, []⟩
  | some h => h

/-- The capacity-doubling `while` loop of `ali_da_maybe_resize_with_size`:
`while (count + to_add >= capacity) capacity = (capacity == 0 ? 8 : capacity*2)`.
The fuel argument only bounds the loop; `need + 2` rounds always suffice. -/
def ali_da_grow_loop : Nat → Nat → Nat → Nat
  | 0, cap, _ => cap
  | fuel + 1, cap, need =>
    if need ≥ cap then
      ali_da_grow_loop fuel (if cap = 0 then ALI_DA_DEFAULT_INIT_CAPACITY else cap * 2) need
    else cap

/-- `ali_da_maybe_resize_with_size(da, to_add, item_size)`. -/
def ali_da_maybe_resize {α : Type} (da : Option (AliDaHeader α)) (to_add : Nat) :
    AliDaHeader α :=
  let h := ali_da_get_header da
  if h.count + to_add ≥ h.capacity then
    { h with capacity := ali_da_grow_loop (h.count + to_add + 2) h.capacity (h.count + to_add) }
  else h

/-- `ali_da_append(da, item)`: resize for one more element, write at index
`count`, increment `count`.  Starting from the `NULL` handle the buffer always
holds exactly `count` elements, so the write is an append. -/
def ali_da_append {α : Type} (da : Option (AliDaHeader α)) (item : α) : AliDaHeader α :=
  let h := ali_da_maybe_resize da 1
  ⟨h.count + 1, h.capacity, h.items ++ [item]⟩

/-- `ali_da_getlen`. -/
def ali_da_getlen {α : Type} (da : Option (AliDaHeader α)) : Nat :=
  match da with
  | none => 0
  | some h => h.count

/-- N appends into an initially `NULL` handle. -/
def ali_da_appendN : Nat → Option (AliDaHeader Unit)
  | 0 => none
  | n + 1 => some (ali_da_append (ali_da_appendN n) ())

-- ### ali_arena (src/ali.h lines 206-242, 499-596)

def ALI_REGION_DEFAULT_CAP : Nat := 4 <<< 10

/-- `AliRegion`: a fixed-capacity buffer with its bump offset.  The `next`
chain is represented by the position of the region in the arena's list. -/
structure AliRegion where
  count : Nat
  capacity : Nat
deriving DecidableEq

/-- `AliArena`: `start` is the head of the region list; `end` is tracked as
the index `endIdx` of the tail region inside `regions`. -/
structure AliArena where
  regions : List AliRegion
  endIdx : Nat
deriving DecidableEq

/-- `AliArenaMark`: the tail region at capture time (`none` models a `NULL`
region pointer) and its offset. -/
structure AliArenaMark where
  r : Option Nat
  count : Nat
deriving DecidableEq

/-- `ali_region_new(capacity)`. -/
def ali_region_new (capacity : Nat) : AliRegion := ⟨0, capacity⟩

/-- `ali_region_alloc(self, size)`: fails when `count + size >= capacity`,
otherwise returns the block's offset and bumps the count. -/
def ali_region_alloc (r : AliRegion) (size : Nat) : Option (Nat × AliRegion) :=
  if r.count + size ≥ r.capacity then none
  else some (r.count, ⟨r.count + size, r.capacity⟩)

/-- The `do { ... } while (ptr == NULL)` loop of `ali_arena_alloc`, starting
from region index `i` (the arena's tail).  When the current region fails and
has no successor, a fresh region of the default capacity is appended, exactly
as `region->next = ali_region_new(ALI_REGION_DEFAULT_CAP)`.  One fuel unit is
one loop iteration; the C loop has no other exit, so exhausting every fuel
bound models non-termination. -/
def ali_arena_alloc_loop : Nat → List AliRegion → Nat → Nat →
    Option ((Nat × Nat) × List AliRegion × Nat)
  | 0, _, _, _ => none
  | fuel + 1, regions, i, size =>
    match ali_region_alloc (regions.getD i (ali_region_new ALI_REGION_DEFAULT_CAP)) size with
    | some (off, r) => some ((i, off), regions.set i r, i)
    | none =>
      let regions1 :=
        if i + 1 = regions.length then regions ++ [ali_region_new ALI_REGION_DEFAULT_CAP]
        else regions
      ali_arena_alloc_loop fuel regions1 (i + 1) size

/-- `ali_arena_alloc(self, size)`: lazily creates the first region, then runs
the allocation loop from the tail.  A successful result is the block's
address as (region index, offset) together with the updated arena. -/
def ali_arena_alloc (fuel : Nat) (a : AliArena) (size : Nat) :
    Option ((Nat × Nat) × AliArena) :=
  let a1 : AliArena :=
    if a.regions.isEmpty then ⟨[ali_region_new ALI_REGION_DEFAULT_CAP], 0⟩ else a
  match ali_arena_alloc_loop fuel a1.regions a1.endIdx size with
  | none => none
  | some (addr, regions, e) => some (addr, ⟨regions, e⟩)

/-- `ali_arena_reset`: zero every region's offset and restore the tail to the
head. -/
def ali_arena_reset (a : AliArena) : AliArena :=
  ⟨a.regions.map (fun r => ⟨0, r.capacity⟩), 0⟩

/-- `ali_arena_mark`: captures the tail region and its current offset.  The C
dereferences `self->end`, so this is meaningful only for an arena that has at
least one region (as in claim C4). -/
def ali_arena_mark (a : AliArena) : AliArenaMark :=
  ⟨some a.endIdx, (a.regions.getD a.endIdx (ali_region_new ALI_REGION_DEFAULT_CAP)).count⟩

/-- Set the count of the region at index `i`. -/
def setRegionCount : List AliRegion → Nat → Nat → List AliRegion
  | [], _, _ => []
  | r :: rs, 0, c => ⟨c, r.capacity⟩ :: rs
  | r :: rs, i + 1, c => r :: setRegionCount rs i c

/-- Zero the count of every region at index ≥ `i` (the rollback `for` loop,
which starts at `mark.r` itself and follows the `next` chain). -/
def zeroFromIdx : List AliRegion → Nat → List AliRegion
  | [], _ => []
  | r :: rs, 0 => ⟨0, r.capacity⟩ :: zeroFromIdx rs 0
  | r :: rs, i + 1 => r :: zeroFromIdx rs i

/-- `ali_arena_rollback(self, mark)`: with a `NULL` marked region it resets;
otherwise it assigns `mark.r->count = mark.count` and then zeroes the count
of every region from `mark.r` onward (the source loop begins at `mark.r`,
not at `mark.r->next`), finally restoring the tail to the marked region. -/
def ali_arena_rollback (a : AliArena) (m : AliArenaMark) : AliArena :=
  match m.r with
  | none => ali_arena_reset a
  | some i => ⟨zeroFromIdx (setRegionCount a.regions i m.count) i, i⟩

/-- Tests that an allocation result lies entirely within one region: the
returned offset plus the request fits (strictly) into the capacity of the
region the address points into. -/
def allocFitsOneRegion (size : Nat) : Option ((Nat × Nat) × AliArena) → Prop
  | some ((j, off), a2) =>
      off + size < (a2.regions.getD j (ali_region_new ALI_REGION_DEFAULT_CAP)).capacity
  | none => False

-- #### Theorems for C2, C3, C5, C6

/-- Claim C2: `ali_log_log(L, ...)` was claimed to emit `"[LEVELNAME] "`, the
message and a newline exactly when `L ≥ M` (so that at the default minimum
INFO all of INFO, WARN and ERROR appear).  The source tests
`ali_global_loglevel >= level`, i.e. it emits exactly when `M ≥ L`: at the
default INFO minimum an ERROR message produces no output at all, and an
INFO message is emitted even when the configured minimum is ERROR. -/
theorem ali_log_emission_is_reversed :
    (∀ minLevel level msg, ali_log_log minLevel level msg ≠ [] ↔
        logLevelNat level ≤ logLevelNat minLevel)
    ∧ ali_log_log .LOG_INFO .LOG_ERROR (("boom").toList) = []
    ∧ ali_log_log .LOG_ERROR .LOG_INFO (("boom").toList) = ("[INFO] boom\n").toList := by
  refine ⟨fun minLevel level msg => ?_, by decide, by decide⟩
  unfold ali_log_log
  split
  · simp_all
  · simp_all

/-- Claim C3: encode-then-decode for the four codepoints 0x41, 0x7FF, 0xFFFF,
0x10FFFF.  It holds for the first three with the claimed sizes 1, 2 and 3, but
fails for 0x10FFFF: the decoder masks the 4-byte lead byte with `0x1F`
instead of `0x07` (src/ali.h line 629), so the decoded codepoint is 0x50FFFF,
not 0x10FFFF (the consumed size 4 is still correct). -/
theorem utf8_roundtrip_results :
    utf8RoundTrip 0x41 = some (0x41, 1) ∧ ali_codepoint_size 0x41 = 1
    ∧ utf8RoundTrip 0x7FF = some (0x7FF, 2) ∧ ali_codepoint_size 0x7FF = 2
    ∧ utf8RoundTrip 0xFFFF = some (0xFFFF, 3) ∧ ali_codepoint_size 0xFFFF = 3
    ∧ utf8RoundTrip 0x10FFFF = some (0x50FFFF, 4) ∧ ali_codepoint_size 0x10FFFF = 4
    ∧ 0x50FFFF ≠ 0x10FFFF := by
  decide

/-- Claim C5 counterexample: the first `ali_sv_chop_by_c` on `"a,b,c"` with
`','` returns the two-character slice `"a,"`, not `"a"`: the separator is
included in the returned slice (`chopped.len` is measured after the final
`ali_sv_step` past the separator). -/
theorem chop_by_c_includes_separator :
    (ali_sv_chop_by_c (("a,b,c").toList) ',').1 ≠ ("a").toList
    ∧ (ali_sv_chop_by_c (("a,b,c").toList) ',').1 = ("a,").toList := by
  decide

/-- Claim C5 as amended: when `c` occurs in the view, `ali_sv_chop_by_c`
returns the slice up to and including the first occurrence of `c` (the
separator is consumed from the view and included in the returned slice), and
the view is advanced past that occurrence.  Three successive calls with `','`
on `"a,b,c"` return `"a,"`, `"b,"`, `"c"` and leave an empty remainder. -/
theorem chop_by_c_amended :
    (∀ (v : List Char) (c : Char), c ∈ v →
      ali_sv_chop_by_c v c =
        (v.takeWhile (fun x => x != c) ++ [c], (v.dropWhile (fun x => x != c)).tail))
    ∧ (ali_sv_chop_by_c (("a,b,c").toList) ',' = (("a,").toList, ("b,c").toList)
       ∧ ali_sv_chop_by_c (("b,c").toList) ',' = (("b,").toList, ("c").toList)
       ∧ ali_sv_chop_by_c (("c").toList) ',' = (("c").toList, [])) := by
  refine ⟨fun v => ?_, by decide, by decide, by decide⟩
  induction v with
  | nil => intro c hc; cases hc
  | cons x xs ih =>
    intro c hc
    by_cases hx : x = c
    · subst hx
      simp [ali_sv_chop_by_c, List.takeWhile, List.dropWhile]
    · have hmem : c ∈ xs := by
        cases hc with
        | head => exact absurd rfl hx
        | tail _ h => exact h
      cases xs with
      | nil => cases hmem
      | cons y ys =>
        have h := ih c hmem
        have hstep : ali_sv_chop_by_c (x :: y :: ys) c =
            (x :: (ali_sv_chop_by_c (y :: ys) c).1, (ali_sv_chop_by_c (y :: ys) c).2) := by
          simp [ali_sv_chop_by_c, hx]
        have hxc : (x != c) = true := by simp [hx]
        rw [hstep, h]
        simp [List.takeWhile_cons, List.dropWhile_cons, hxc]

/-- Witness for `chop_by_c_amended`: instantiates the universally quantified
part at `v = "a,b,c"`, `c = ','`, discharging the membership hypothesis. -/
theorem chop_by_c_amended_witness :
    (',' ∈ ("a,b,c").toList)
    ∧ (ali_sv_chop_by_c (("a,b,c").toList) ',').1 = ("a,").toList := by
  refine ⟨by decide, ?_⟩
  have h := chop_by_c_amended.1 (("a,b,c").toList) ',' (by decide)
  rw [h]
  decide

/-- Count is incremented by exactly one per append, for any handle. -/
theorem ali_da_append_count {α : Type} (da : Option (AliDaHeader α)) (x : α) :
    (ali_da_append da x).count = ali_da_getlen da + 1 := by
  cases da with
  | none =>
    simp only [ali_da_append, ali_da_maybe_resize, ali_da_get_header, ali_da_getlen]
    split <;> rfl
  | some h =>
    simp only [ali_da_append, ali_da_maybe_resize, ali_da_get_header, ali_da_getlen]
    split <;> rfl

/-- Claim C6 counterexample: after appending the 8th element the capacity is
already 16, because `ali_da_maybe_resize` doubles as soon as
`count + to_add >= capacity` (7 + 1 ≥ 8); the claim said the capacity stays 8
for every N up to and including 8 and first grows across the 8→9 boundary. -/
theorem da_capacity_after_8_appends :
    (ali_da_appendN 8).map (fun h => h.capacity) ≠ some 8
    ∧ (ali_da_appendN 8).map (fun h => h.capacity) = some 16 := by
  decide

/-- Claim C6 as amended: appending N elements with `ali_da_append` from an
empty handle makes `ali_da_getlen` return N (for every N, in particular
0, 1, 8, 9 and 1000), and the capacity stays at its initial value 8 only up
to N = 7: the first growth happens during the 8th append (the resize
condition `count + to_add >= capacity` fires at 7 + 1 ≥ 8), after which the
capacity is 16 through N = 9. -/
theorem da_append_length_and_capacity :
    (∀ n, ali_da_getlen (ali_da_appendN n) = n)
    ∧ (ali_da_appendN 7).map (fun h => h.capacity) = some 8
    ∧ (ali_da_appendN 8).map (fun h => h.capacity) = some 16
    ∧ (ali_da_appendN 9).map (fun h => h.capacity) = some 16 := by
  refine ⟨fun n => ?_, by decide, by decide, by decide⟩
  induction n with
  | zero => rfl
  | succ n ih =>
    have h := ali_da_append_count (ali_da_appendN n) ()
    simp only [ali_da_appendN, ali_da_getlen] at *
    rw [h, ih]

-- #### Theorems for C4, C9

/-- Claim C4: `ali_arena_rollback` was claimed to restore the marked region's
offset to the value captured by `ali_arena_mark` (so that the next allocation
reuses the address that was next at mark time).  In the source the zeroing
`for` loop starts at `mark.r` itself, so the offset just restored from the
mark is immediately overwritten with 0: after marking a region at offset 16,
allocating 8 more bytes and rolling back, the region's offset is 0, and the
next 8-byte allocation is placed at offset 0 instead of offset 16. -/
theorem arena_rollback_zeroes_marked_region :
    ali_arena_mark ⟨[⟨16, 4096⟩], 0⟩ = ⟨some 0, 16⟩
    ∧ (ali_arena_alloc 1 ⟨[⟨16, 4096⟩], 0⟩ 8).map (fun p => p.1) = some (0, 16)
    ∧ (ali_arena_alloc 1 ⟨[⟨16, 4096⟩], 0⟩ 8).map (fun p => p.2) = some ⟨[⟨24, 4096⟩], 0⟩
    ∧ ali_arena_rollback ⟨[⟨24, 4096⟩], 0⟩ ⟨some 0, 16⟩ = ⟨[⟨0, 4096⟩], 0⟩
    ∧ (ali_arena_alloc 1 ⟨[⟨0, 4096⟩], 0⟩ 8).map (fun p => p.1) = some (0, 0)
    ∧ ((0, 0) : Nat × Nat) ≠ (0, 16) := by
  decide

/-- `List.getD` of a `set` at the written (in-bounds) index. -/
theorem listGetD_set_self {α : Type} :
    ∀ (l : List α) (i : Nat) (a d : α), i < l.length → (l.set i a).getD i d = a := by
  intro l
  induction l with
  | nil => intro i a d h; cases h
  | cons x xs ih =>
    intro i a d h
    cases i with
    | zero => rfl
    | succ i => exact ih i a d (by simpa using h)

/-- `List.getD` just past the end of `l` in `l ++ [x]`. -/
theorem listGetD_append_length {α : Type} :
    ∀ (l : List α) (x d : α), (l ++ [x]).getD l.length d = x := by
  intro l
  induction l with
  | nil => intro x d; rfl
  | cons y ys ih => intro x d; exact ih x d

/-- The region `ali_arena_alloc_loop` inspects has capacity at most the
default whenever every region of the list does (the out-of-range default is
a fresh default-capacity region). -/
theorem listGetD_capacity_le :
    ∀ (rs : List AliRegion) (i : Nat),
      (∀ r ∈ rs, r.capacity ≤ ALI_REGION_DEFAULT_CAP) →
      (rs.getD i (ali_region_new ALI_REGION_DEFAULT_CAP)).capacity ≤ ALI_REGION_DEFAULT_CAP := by
  intro rs
  induction rs with
  | nil => intro i _; cases i <;> exact Nat.le_refl _
  | cons r rs ih =>
    intro i hcap
    cases i with
    | zero => exact hcap r (List.mem_cons_self r rs)
    | succ i => exact ih i (fun r' hr' => hcap r' (List.mem_cons_of_mem _ hr'))

/-- An oversized request (at least one region's capacity) can never be
satisfied: `ali_region_alloc` fails on every region, the loop keeps chaining
fresh default-capacity regions, and no amount of fuel makes it return. -/
theorem alloc_loop_none_of_oversized :
    ∀ (fuel : Nat) (rs : List AliRegion) (i size : Nat),
      ALI_REGION_DEFAULT_CAP ≤ size →
      (∀ r ∈ rs, r.capacity ≤ ALI_REGION_DEFAULT_CAP) →
      ali_arena_alloc_loop fuel rs i size = none := by
  intro fuel
  induction fuel with
  | zero => intro rs i size _ _; rfl
  | succ fuel ih =>
    intro rs i size hsize hcap
    have hc := listGetD_capacity_le rs i hcap
    have hfail :
        ali_region_alloc (rs.getD i (ali_region_new ALI_REGION_DEFAULT_CAP)) size = none := by
      unfold ali_region_alloc
      rw [if_pos (by omega)]
    simp only [ali_arena_alloc_loop, hfail]
    apply ih
    · exact hsize
    · intro r hr
      split at hr
      · rcases List.mem_append.1 hr with h | h
        · exact hcap r h
        · rcases List.mem_singleton.1 h with rfl
          exact Nat.le_refl _
      · exact hcap r hr

/-- A request strictly smaller than the default capacity is always satisfied:
walking from a valid tail index, either some existing region takes it or a
fresh default-capacity region is chained and takes it; the returned offset
plus the request fits strictly inside the satisfying region's capacity. -/
theorem alloc_loop_some_of_small :
    ∀ (n : Nat) (rs : List AliRegion) (i size : Nat),
      size < ALI_REGION_DEFAULT_CAP → i < rs.length → rs.length - i ≤ n →
      ∃ j off rs2, ali_arena_alloc_loop (n + 1) rs i size = some ((j, off), rs2, j)
        ∧ off + size < (rs2.getD j (ali_region_new ALI_REGION_DEFAULT_CAP)).capacity := by
  intro n
  induction n with
  | zero => intro rs i size _ hi hn; omega
  | succ n ih =>
    intro rs i size hsize hi hn
    rcases halloc : ali_region_alloc (rs.getD i (ali_region_new ALI_REGION_DEFAULT_CAP)) size
      with _ | ⟨off, r1⟩
    · -- current region fails
      by_cases hlast : i + 1 = rs.length
      · -- chain and use a fresh region, which must succeed
        have hfresh :
            ali_region_alloc (ali_region_new ALI_REGION_DEFAULT_CAP) size =
              some (0, ⟨size, ALI_REGION_DEFAULT_CAP⟩) := by
          unfold ali_region_alloc ali_region_new
          rw [if_neg (by simpa using Nat.not_le.2 hsize)]
          simp
        refine ⟨i + 1, 0, (rs ++ [ali_region_new ALI_REGION_DEFAULT_CAP]).set (i + 1)
          ⟨size, ALI_REGION_DEFAULT_CAP⟩, ?_, ?_⟩
        · simp only [ali_arena_alloc_loop, halloc, if_pos hlast]
          rw [hlast, listGetD_append_length, hfresh]
        · rw [listGetD_set_self]
          · simpa using hsize
          · simp [← hlast]
      · -- move to the already-existing next region
        have hi1 : i + 1 < rs.length := by omega
        have hn1 : rs.length - (i + 1) ≤ n := by omega
        obtain ⟨j, off, rs2, hloop, hfit⟩ := ih rs (i + 1) size hsize hi1 hn1
        refine ⟨j, off, rs2, ?_, hfit⟩
        simp only [ali_arena_alloc_loop, halloc, if_neg hlast]
        exact hloop
    · -- current region succeeds
      have hcond := halloc
      unfold ali_region_alloc at hcond
      by_cases hge : (rs.getD i (ali_region_new ALI_REGION_DEFAULT_CAP)).count + size ≥
          (rs.getD i (ali_region_new ALI_REGION_DEFAULT_CAP)).capacity
      · rw [if_pos hge] at hcond; cases hcond
      · rw [if_neg hge] at hcond
        injection hcond with hpair
        refine ⟨i, off, rs.set i r1, ?_, ?_⟩
        · simp only [ali_arena_alloc_loop, halloc]
        · rw [listGetD_set_self _ _ _ _ hi]
          have h1 : off = (rs.getD i (ali_region_new ALI_REGION_DEFAULT_CAP)).count := by
            have := congrArg Prod.fst hpair; simpa using this.symm
          have h2 : r1.capacity = (rs.getD i (ali_region_new ALI_REGION_DEFAULT_CAP)).capacity := by
            have := congrArg Prod.snd hpair
            have h3 : r1 = (⟨(rs.getD i (ali_region_new ALI_REGION_DEFAULT_CAP)).count + size,
                (rs.getD i (ali_region_new ALI_REGION_DEFAULT_CAP)).capacity⟩ : AliRegion) := by
              simpa using this.symm
            rw [h3]
          rw [h1, h2]
          omega

/-- `ali_arena_alloc` on an arena with no regions: the first region is lazily
created and the loop starts there. -/
theorem ali_arena_alloc_nil (fuel e size : Nat) :
    ali_arena_alloc fuel ⟨[], e⟩ size =
      match ali_arena_alloc_loop fuel [ali_region_new ALI_REGION_DEFAULT_CAP] 0 size with
      | none => none
      | some (addr, regions, e1) => some (addr, ⟨regions, e1⟩) := rfl

/-- `ali_arena_alloc` on a non-empty arena: the loop starts at the tail. -/
theorem ali_arena_alloc_cons (fuel : Nat) (r0 : AliRegion) (rest : List AliRegion)
    (e size : Nat) :
    ali_arena_alloc fuel ⟨r0 :: rest, e⟩ size =
      match ali_arena_alloc_loop fuel (r0 :: rest) e size with
      | none => none
      | some (addr, regions, e1) => some (addr, ⟨regions, e1⟩) := rfl

/-- Claim C9: `ali_arena_alloc(size)` terminates with a block lying entirely
within a single region exactly when `size` is strictly below the region
capacity (always the default `ALI_REGION_DEFAULT_CAP = 4096`): for
`size < 4096` a pass over the existing tail regions plus at most one freshly
chained region succeeds (fuel `regions.length + 2` suffices), while for
`size ≥ 4096` the success test `count + size >= capacity` fails in every
region — existing or freshly created — so the `do/while` loop never exits,
modelled by the loop returning nothing for every fuel bound. -/
theorem arena_alloc_termination (a : AliArena) (size : Nat)
    (hwf : a.regions = [] ∨ a.endIdx < a.regions.length)
    (hcap : ∀ r ∈ a.regions, r.capacity = ALI_REGION_DEFAULT_CAP) :
    (size < ALI_REGION_DEFAULT_CAP →
      allocFitsOneRegion size (ali_arena_alloc (a.regions.length + 2) a size))
    ∧ (ALI_REGION_DEFAULT_CAP ≤ size →
      ∀ fuel, ali_arena_alloc fuel a size = none) := by
  obtain ⟨regs, e⟩ := a
  constructor
  · intro hsize
    rcases regs with _ | ⟨r0, rest⟩
    · -- empty arena: one fresh region is created first and satisfies the request
      obtain ⟨j, off, rs2, hloop, hfit⟩ :=
        alloc_loop_some_of_small 1 [ali_region_new ALI_REGION_DEFAULT_CAP] 0 size hsize
          (by simp) (by simp)
      rw [show (List.length ([] : List AliRegion) + 2) = 1 + 1 from rfl,
        ali_arena_alloc_nil, hloop]
      simpa [allocFitsOneRegion] using hfit
    · have hi : e < (r0 :: rest).length := by
        rcases hwf with h | h
        · cases h
        · exact h
      obtain ⟨j, off, rs2, hloop, hfit⟩ :=
        alloc_loop_some_of_small ((r0 :: rest).length + 1) (r0 :: rest) e size hsize hi
          (by omega)
      rw [show ((r0 :: rest).length + 2) = ((r0 :: rest).length + 1) + 1 from rfl,
        ali_arena_alloc_cons, hloop]
      simpa [allocFitsOneRegion] using hfit
  · intro hsize fuel
    rcases regs with _ | ⟨r0, rest⟩
    · rw [ali_arena_alloc_nil,
        alloc_loop_none_of_oversized fuel [ali_region_new ALI_REGION_DEFAULT_CAP] 0 size hsize
          (by intro r hr; rcases List.mem_singleton.1 hr with rfl; exact Nat.le_refl _)]
    · rw [ali_arena_alloc_cons,
        alloc_loop_none_of_oversized fuel (r0 :: rest) e size hsize
          (fun r hr => Nat.le_of_eq (hcap r hr))]

/-- Witness for `arena_alloc_termination`: instantiated at the empty arena
with an 8-byte request (fits, at offset 0 of the first region) and with a
4096-byte request at fuel 7 (never satisfied). -/
theorem arena_alloc_termination_witness :
    allocFitsOneRegion 8 (ali_arena_alloc 2 ⟨[], 0⟩ 8)
    ∧ ali_arena_alloc 7 ⟨[], 0⟩ 4096 = none :=
  ⟨(arena_alloc_termination ⟨[], 0⟩ 8 (Or.inl rfl) (fun r hr => by cases hr)).1 (by decide),
   (arena_alloc_termination ⟨[], 0⟩ 4096 (Or.inl rfl) (fun r hr => by cases hr)).2
     (by decide) 7⟩

-- ### json.h value model (src/json.h lines 6-49, 98-202, 368-403)

inductive JsonValueType where
  | JSON_NUMBER
  | JSON_BOOLEAN
  | JSON_STRING
  | JSON_ARRAY
  | JSON_OBJECT
deriving DecidableEq

/-- A C `double` value, modelled as an exact unreduced rational `num / den`
(`den` is a power of ten as produced by decimal parsing).  This is exact
whenever the decimal text is exactly representable in a binary double, which
holds for every number appearing in the claims (small integers). -/
structure CDouble where
  num : Int
  den : Nat
deriving DecidableEq

mutual
/-- `JsonValue`: the `type` tag together with the last-written member of the
`JsonValueAs` union.  Tag and payload are separate, so mismatched writes (as
performed by the boolean branch of the parser, which tags the value
`JSON_STRING` but stores `as.boolean`) are representable. -/
inductive JsonValue where
  | mk (type : JsonValueType) (payload : JsonPayload)
/-- The `JsonValueAs` union member that was last stored. -/
inductive JsonPayload where
  | number (x : CDouble)
  | boolean (b : Bool)
  | string (s : List Char)
  | array (len : Nat) (next : JsonNodeList)
  | object (len : Nat) (next : JsonItemList)
/-- The `JsonArrayNode` singly-linked list; `nil` is the `NULL` pointer. -/
inductive JsonNodeList where
  | nil
  | cons (value : JsonValue) (next : JsonNodeList)
/-- The `JsonObjectItem` singly-linked list; `nil` is the `NULL` pointer. -/
inductive JsonItemList where
  | nil
  | cons (key : List Char) (value : JsonValue) (next : JsonItemList)
end

deriving instance DecidableEq for JsonValue, JsonPayload, JsonNodeList, JsonItemList

/-- `JsonArray`: length plus head pointer of the node list. -/
structure JsonArray where
  len : Nat
  next : JsonNodeList
deriving DecidableEq

/-- `JsonObject`: length plus head pointer of the item list. -/
structure JsonObject where
  len : Nat
  next : JsonItemList
deriving DecidableEq

/-- `json_value_number`. -/
def json_value_number (x : CDouble) : JsonValue := .mk .JSON_NUMBER (.number x)

/-- `json_value_string`. -/
def json_value_string (s : List Char) : JsonValue := .mk .JSON_STRING (.string s)

/-- The tail-walking append of `json_array_append`. -/
def jsonNodeAppend : JsonNodeList → JsonValue → JsonNodeList
  | .nil, v => .cons v .nil
  | .cons w r, v => .cons w (jsonNodeAppend r v)

/-- `json_array_append`: increments `len` and links a node at the tail. -/
def json_array_append (a : JsonArray) (v : JsonValue) : JsonArray :=
  ⟨a.len + 1, jsonNodeAppend a.next v⟩

/-- The tail-walking append of `json_object_append`. -/
def jsonItemAppend : JsonItemList → List Char → JsonValue → JsonItemList
  | .nil, k, v => .cons k v .nil
  | .cons k0 v0 r, k, v => .cons k0 v0 (jsonItemAppend r k v)

/-- `json_object_append`. -/
def json_object_append (o : JsonObject) (k : List Char) (v : JsonValue) : JsonObject :=
  ⟨o.len + 1, jsonItemAppend o.next k v⟩

/-- Result of `json_array_get_item` / `json_object_get_item`: `absent` is the
`NULL` returned by the bounds guard; `value v` is `&cur->value` for a reached
node; `nullDeref` is `&cur->value` formed from the `NULL` tail pointer after
the walk ran off the list. -/
inductive JsonGetResult where
  | absent
  | value (v : JsonValue)
  | nullDeref
deriving DecidableEq

/-- The `while (cur != NULL && index > 0)` walk of `json_array_get_item`,
followed by `return &cur->value`. -/
def jsonNodeWalk : JsonNodeList → Nat → JsonGetResult
  | .nil, _ => .nullDeref
  | .cons v _, 0 => .value v
  | .cons _ r, n + 1 => jsonNodeWalk r n

/-- `json_array_get_item(array, index)`: the guard rejects only
`index > array->len`. -/
def json_array_get_item (a : JsonArray) (index : Nat) : JsonGetResult :=
  if index > a.len then .absent else jsonNodeWalk a.next index

/-- The walk of `json_object_get_item`. -/
def jsonItemWalk : JsonItemList → Nat → JsonGetResult
  | .nil, _ => .nullDeref
  | .cons _ v _, 0 => .value v
  | .cons _ _ r, n + 1 => jsonItemWalk r n

/-- `json_object_get_item(object, index)`. -/
def json_object_get_item (o : JsonObject) (index : Nat) : JsonGetResult :=
  if index > o.len then .absent else jsonItemWalk o.next index

/-- Number of nodes actually linked in the list. -/
def jsonNodeLength : JsonNodeList → Nat
  | .nil => 0
  | .cons _ r => jsonNodeLength r + 1

/-- Number of items actually linked in the list. -/
def jsonItemLength : JsonItemList → Nat
  | .nil => 0
  | .cons _ _ r => jsonItemLength r + 1

/-- The bytes a `json_strndup`-copied span exposes to `strcmp`: everything up
to its first embedded NUL (or the implicit terminator appended by the copy). -/
def cstrPrefix (s : List Char) : List Char := s.takeWhile (fun c => c != Char.ofNat 0)

/-- `strcmp(a, b) == 0` for NUL-terminated copies of the given spans. -/
def cstrEqZero (a b : List Char) : Bool := cstrPrefix a == cstrPrefix b

/-- The `strcmp`-based scan of `json_object_find_value`. -/
def jsonItemFind : JsonItemList → List Char → Option JsonValue
  | .nil, _ => none
  | .cons k v r, key => if cstrEqZero k key then some v else jsonItemFind r key

/-- `json_object_find_value(object, key)`. -/
def json_object_find_value (o : JsonObject) (key : List Char) : Option JsonValue :=
  if o.len = 0 then none else jsonItemFind o.next key

/-- `json_value_as_number`: the payload only on a tag match, else `NULL`.
(A `JSON_NUMBER`-tagged value whose last-stored union member is not the
number would make this a reinterpreting read; neither the parser nor `main`
ever builds one, so that case is collapsed to `none`.) -/
def json_value_as_number : JsonValue → Option CDouble
  | .mk .JSON_NUMBER (.number x) => some x
  | _ => none

/-- `json_value_as_string`: the C checks only the tag (src/json.h line 374)
and returns `&value->as.string` for every `JSON_STRING`-tagged value —
including the parser's boolean-literal values, whose last-stored member is
`as.boolean`.  `none` is the C's `NULL` (tag mismatch); `some (some s)` is a
non-NULL pointer to a stored string `s`; `some none` is a non-NULL pointer
whose target reinterprets another union member (no string value can be
modelled for it). -/
def json_value_as_string : JsonValue → Option (Option (List Char))
  | .mk .JSON_STRING (.string s) => some (some s)
  | .mk .JSON_STRING _ => some none
  | _ => none

/-- `json_value_as_boolean`. -/
def json_value_as_boolean : JsonValue → Option Bool
  | .mk .JSON_BOOLEAN (.boolean b) => some b
  | _ => none

/-- `json_value_as_array`. -/
def json_value_as_array : JsonValue → Option JsonArray
  | .mk .JSON_ARRAY (.array len next) => some ⟨len, next⟩
  | _ => none

/-- `json_value_as_object`. -/
def json_value_as_object : JsonValue → Option JsonObject
  | .mk .JSON_OBJECT (.object len next) => some ⟨len, next⟩
  | _ => none

-- ### json.h serializer (src/json.h lines 331-366)

def digitChar (n : Nat) : Char := Char.ofNat (48 + n)

def natToDecAux : Nat → Nat → List Char
  | 0, _ => []
  | fuel + 1, n => if n < 10 then [digitChar n] else natToDecAux fuel (n / 10) ++ [digitChar (n % 10)]

/-- Decimal rendering of a natural number. -/
def natToDec (n : Nat) : List Char := natToDecAux (n + 1) n

def twoDigits (n : Nat) : List Char := [digitChar (n / 10 % 10), digitChar (n % 10)]

/-- `printf("%.2lf", x)` for a nonnegative exact value `num / den`: round to
the nearest hundredth and print with exactly two decimals.  (The C rounds the
binary double; both agree whenever the value is exact in two decimals, as is
every number in the claims.) -/
def fmt2abs (x : CDouble) : List Char :=
  let n := ((200 * x.num + (x.den : Int)) / (2 * (x.den : Int))).toNat
  natToDec (n / 100) ++ ('.' :: twoDigits (n % 100))

/-- `printf("%.2lf", x)`. -/
def fmt2 (x : CDouble) : List Char :=
  if x.num < 0 then '-' :: fmt2abs ⟨-x.num, x.den⟩ else fmt2abs x

def dquoteChar : Char := Char.ofNat 34
def obraceChar : Char := Char.ofNat 123
def cbraceChar : Char := Char.ofNat 125

mutual
/-- `json_stringify`, as the bytes it prints.  `none` models the
`UNREACHABLE()` abort of the `default` case and (as in the accessors) the
reinterpreting reads that a mismatched tag/payload pair would perform. -/
def json_stringify : JsonValue → Option (List Char)
  | .mk .JSON_NUMBER (.number x) => some (fmt2 x)
  | .mk .JSON_STRING (.string s) => some (dquoteChar :: s ++ [dquoteChar])
  | .mk .JSON_BOOLEAN (.boolean b) =>
      some (if b then ("true").toList else ("false").toList)
  | .mk .JSON_ARRAY (.array _ ns) =>
      match jsonStringifyNodes ns with
      | some t => some ('[' :: t ++ [']'])
      | none => none
  | .mk .JSON_OBJECT (.object _ its) =>
      match jsonStringifyItems its with
      | some t => some (obraceChar :: t ++ [cbraceChar])
      | none => none
  | _ => none

/-- The array item loop of `json_stringify`: items joined with `", "`. -/
def jsonStringifyNodes : JsonNodeList → Option (List Char)
  | .nil => some []
  | .cons v .nil => json_stringify v
  | .cons v (.cons w r) =>
      match json_stringify v, jsonStringifyNodes (.cons w r) with
      | some s, some t => some (s ++ (", ").toList ++ t)
      | _, _ => none

/-- The object item loop of `json_stringify`: `"key": value` joined with
`", "`. -/
def jsonStringifyItems : JsonItemList → Option (List Char)
  | .nil => some []
  | .cons k v .nil =>
      match json_stringify v with
      | some s => some (dquoteChar :: k ++ (dquoteChar :: ':' :: ' ' :: s))
      | none => none
  | .cons k v (.cons k2 v2 r) =>
      match json_stringify v, jsonStringifyItems (.cons k2 v2 r) with
      | some s, some t => some ((dquoteChar :: k ++ (dquoteChar :: ':' :: ' ' :: s)) ++ (", ").toList ++ t)
      | _, _ => none
end

-- ### json.h lexer and parser (src/json.h lines 204-329)

/-- `JsonLexer`: the constant content length (all the buggy `json_is_empty`
ever reads) and the characters from the cursor to the end of the buffer. -/
structure JsonLexer where
  content_len : Nat
  rest : List Char
deriving DecidableEq

/-- `json_lexer(content_start, content_size)` as called by `main`: the size is
the content's length and the cursor starts at the content's start. -/
def json_lexer (content : List Char) : JsonLexer := ⟨content.length, content⟩

/-- `json_is_empty`: the source compares `content_start` with
`content_start + content_len`, never consulting the cursor, so it is true
exactly when `content_len == 0`. -/
def json_is_empty (lx : JsonLexer) : Bool := lx.content_len == 0

/-- `*lexer->cursor`.  A cursor that has run past the buffer reads an
unspecified byte in C; it is modelled as NUL, which no branch guard of the
parser accepts. -/
def jsonPeek (lx : JsonLexer) : Char := lx.rest.headD (Char.ofNat 0)

/-- `lexer->cursor++`. -/
def jsonAdvance (lx : JsonLexer) : JsonLexer := ⟨lx.content_len, lx.rest.tail⟩

/-- The scanning loop of `json_lexer_trim_left`; past the end of the buffer
the modelled NUL byte is not a space, so the loop stops there. -/
def jsonTrimAux : List Char → List Char
  | [] => []
  | c :: r => if c_isspace c then jsonTrimAux r else c :: r

/-- `json_lexer_trim_left`. -/
def json_lexer_trim_left (lx : JsonLexer) : JsonLexer :=
  if json_is_empty lx then lx else ⟨lx.content_len, jsonTrimAux lx.rest⟩

/-- `json_lexer_expect_char`: EOF (per `json_is_empty`) or a mismatched
character produce a diagnostic and `false` (`none` here); on success the
cursor advances past the expected character. -/
def json_lexer_expect_char (lx : JsonLexer) (c : Char) : Option JsonLexer :=
  if json_is_empty lx then none
  else if jsonPeek lx = c then some (jsonAdvance lx) else none

/-- The scan `while (!json_is_empty(lexer) && *lexer->cursor != stop)`:
splits the remaining input at the first `stop` character.  `none` marks the
scan running off the buffer, where the C (whose `json_is_empty` never becomes
true) would walk unspecified memory without bound; the parser result is then
modelled as divergence. -/
def jsonScanUntil (stop : Char) : List Char → Option (List Char × List Char)
  | [] => none
  | c :: r =>
    if c = stop then some ([], c :: r)
    else (jsonScanUntil stop r).map (fun p => (c :: p.1, p.2))

/-- The boolean-literal scan
`while (!json_is_empty(lexer) && !isalpha(*lexer->cursor))`: it consumes
characters while they are NOT alphabetic, i.e. it stops at the first
alphabetic character (which, the branch guard being `f`/`t`, is the very
first one).  `none` as in `jsonScanUntil`. -/
def jsonScanNonAlpha : List Char → Option (List Char × List Char)
  | [] => none
  | c :: r =>
    if c_isalpha c then some ([], c :: r)
    else (jsonScanNonAlpha r).map (fun p => (c :: p.1, p.2))

/-- `strncmp(s, t, n) == 0` for NUL-terminated strings with NUL-free
contents, as used on the captured boolean span against `"true"`. -/
def cstrncmpEqZero : List Char → List Char → Nat → Bool
  | _, _, 0 => true
  | [], [], _ + 1 => true
  | [], _ :: _, _ + 1 => false
  | _ :: _, [], _ + 1 => false
  | a :: s, b :: t, n + 1 => a == b && cstrncmpEqZero s t n

/-- Digits-to-number accumulator. -/
def digitsToNat (ds : List Char) : Nat := ds.foldl (fun a c => a * 10 + (c.toNat - 48)) 0

/-- C `isxdigit`. -/
def c_isxdigit (c : Char) : Bool :=
  c_isdigit c || (97 ≤ c.toNat && c.toNat ≤ 102) || (65 ≤ c.toNat && c.toNat ≤ 70)

/-- Value of a hexadecimal digit. -/
def hexDigitVal (c : Char) : Nat :=
  if c_isdigit c then c.toNat - 48
  else if 97 ≤ c.toNat then c.toNat - 87
  else c.toNat - 55

/-- Hexadecimal digits-to-number accumulator. -/
def hexDigitsToNat (ds : List Char) : Nat := ds.foldl (fun a c => a * 16 + hexDigitVal c) 0

/-- The decimal form accepted by `strtod` after the optional sign: digits, an
optional fraction, an optional `e`/`E` decimal exponent.  With no digit at
all there is no conversion: nothing (not even a sign) is consumed and the
value is 0. -/
def strtodDecimal (sgn : Int) (signLen : Nat) (s0 : List Char) : CDouble × Nat :=
  let ip := s0.takeWhile c_isdigit
  let s1 := s0.drop ip.length
  let fpR : Nat × List Char × List Char :=
    match s1 with
    | c :: r =>
      if c = '.' then (1, r.takeWhile c_isdigit, r.drop (r.takeWhile c_isdigit).length)
      else (0, [], s1)
    | [] => (0, [], s1)
  let dotLen := fpR.1
  let fp := fpR.2.1
  let s2 := fpR.2.2
  if ip.length = 0 ∧ fp.length = 0 then (⟨0, 1⟩, 0)
  else
    let mantNum : Int := sgn * ((digitsToNat ip * 10 ^ fp.length + digitsToNat fp : Nat) : Int)
    let baseLen := signLen + ip.length + dotLen + fp.length
    let expR : Int × Nat :=
      match s2 with
      | c :: r =>
        if c = 'e' ∨ c = 'E' then
          let esgnR : Int × List Char × Nat :=
            match r with
            | c2 :: r2 =>
              if c2 = '-' then (-1, r2, 1) else if c2 = '+' then (1, r2, 1) else (1, r, 0)
            | [] => (1, r, 0)
          let ed := esgnR.2.1.takeWhile c_isdigit
          if ed.length = 0 then (0, 0)
          else (esgnR.1 * (digitsToNat ed : Int), 1 + esgnR.2.2 + ed.length)
        else (0, 0)
      | [] => (0, 0)
    let scale : Int := expR.1 - (fp.length : Int)
    if 0 ≤ scale then (⟨mantNum * 10 ^ scale.toNat, 1⟩, baseLen + expR.2)
    else (⟨mantNum, 10 ^ (-scale).toNat⟩, baseLen + expR.2)

/-- The hexadecimal form accepted by `strtod` after the optional sign and the
`0x`/`0X` prefix (`s2` starts after that prefix): hex digits, an optional hex
fraction, an optional `p`/`P` binary exponent with decimal digits.  With no
hex digit at all the longest valid subject is just the decimal `0`, so one
character beyond the sign is consumed and the value is 0. -/
def strtodHex (sgn : Int) (signLen : Nat) (s2 : List Char) : CDouble × Nat :=
  let hip := s2.takeWhile c_isxdigit
  let s3 := s2.drop hip.length
  let fpR : Nat × List Char × List Char :=
    match s3 with
    | c :: r =>
      if c = '.' then (1, r.takeWhile c_isxdigit, r.drop (r.takeWhile c_isxdigit).length)
      else (0, [], s3)
    | [] => (0, [], s3)
  let dotLen := fpR.1
  let hfp := fpR.2.1
  let s4 := fpR.2.2
  if hip.length = 0 ∧ hfp.length = 0 then (⟨0, 1⟩, signLen + 1)
  else
    let mantNum : Int :=
      sgn * ((hexDigitsToNat hip * 16 ^ hfp.length + hexDigitsToNat hfp : Nat) : Int)
    let baseLen := signLen + 2 + hip.length + dotLen + hfp.length
    let expR : Int × Nat :=
      match s4 with
      | c :: r =>
        if c = 'p' ∨ c = 'P' then
          let esgnR : Int × List Char × Nat :=
            match r with
            | c2 :: r2 =>
              if c2 = '-' then (-1, r2, 1) else if c2 = '+' then (1, r2, 1) else (1, r, 0)
            | [] => (1, r, 0)
          let ed := esgnR.2.1.takeWhile c_isdigit
          if ed.length = 0 then (0, 0)
          else (esgnR.1 * (digitsToNat ed : Int), 1 + esgnR.2.2 + ed.length)
        else (0, 0)
      | [] => (0, 0)
    if 0 ≤ expR.1 then (⟨mantNum * 2 ^ expR.1.toNat, 16 ^ hfp.length⟩, baseLen + expR.2)
    else (⟨mantNum, 16 ^ hfp.length * 2 ^ (-expR.1).toNat⟩, baseLen + expR.2)

/-- `strtod(cursor, &endptr)`: value and number of characters consumed,
covering the decimal and hexadecimal (`0x`) forms the host routine accepts.
The host routine also skips leading white space and recognizes inf/nan
forms; the parser invokes it only with the cursor on a digit or a dot, where
neither can begin.  Values are exact rationals: consumed lengths agree with
the host everywhere, values agree whenever the text is exactly representable
in a double (every number in the claims). -/
def strtodModel (s : List Char) : CDouble × Nat :=
  let sgnR : Int × List Char × Nat :=
    match s with
    | c :: r =>
      if c = '-' then (-1, r, 1) else if c = '+' then (1, r, 1) else (1, s, 0)
    | [] => (1, s, 0)
  match sgnR.2.1 with
  | c0 :: c1 :: r2 =>
    if c0 = '0' ∧ (c1 = 'x' ∨ c1 = 'X') then strtodHex sgnR.1 sgnR.2.2 r2
    else strtodDecimal sgnR.1 sgnR.2.2 sgnR.2.1
  | _ => strtodDecimal sgnR.1 sgnR.2.2 sgnR.2.1

/-- Outcome of a parsing function: `ok` is the C returning `true` with the
produced value; `fail` is the C returning `false` after a diagnostic; `div`
means no result — the fuel ran out, or a scan ran off the buffer (where the C
loops without bound). -/
inductive PResult (α : Type) where
  | ok (a : α)
  | fail
  | div
deriving DecidableEq

/-- The shared tail of the object branch: trim, expect `}` and produce the
accumulated object value. -/
def jsonFinishObject (lx : JsonLexer) (obj : JsonObject) : PResult (JsonValue × JsonLexer) :=
  match json_lexer_expect_char (json_lexer_trim_left lx) cbraceChar with
  | none => .fail
  | some lx2 => .ok (.mk .JSON_OBJECT (.object obj.len obj.next), lx2)

/-- The shared tail of the array branch: trim, expect `]` and produce the
accumulated array value. -/
def jsonFinishArray (lx : JsonLexer) (arr : JsonArray) : PResult (JsonValue × JsonLexer) :=
  match json_lexer_expect_char (json_lexer_trim_left lx) ']' with
  | none => .fail
  | some lx2 => .ok (.mk .JSON_ARRAY (.array arr.len arr.next), lx2)

mutual
/-- `json_lexer_parse_value`.  One fuel unit per recursive step (nested value
or collection-loop iteration). -/
def json_lexer_parse_value : Nat → JsonLexer → PResult (JsonValue × JsonLexer)
  | 0, _ => .div
  | fuel + 1, lx0 =>
    let lx := json_lexer_trim_left lx0
    if c_isdigit (jsonPeek lx) || jsonPeek lx = '.' then
      -- number: strtod from the cursor, cursor moves to endptr
      let r := strtodModel lx.rest
      .ok (.mk .JSON_NUMBER (.number r.1), ⟨lx.content_len, lx.rest.drop r.2⟩)
    else if jsonPeek lx = dquoteChar then
      -- string: capture up to the next quote, then expect the closing quote
      match jsonScanUntil dquoteChar (jsonAdvance lx).rest with
      | none => .div
      | some (sp, rest1) =>
        match json_lexer_expect_char ⟨lx.content_len, rest1⟩ dquoteChar with
        | none => .fail
        | some lx2 => .ok (.mk .JSON_STRING (.string sp), lx2)
    else if jsonPeek lx = 'f' ∨ jsonPeek lx = 't' then
      -- boolean: the type is set to JSON_BOOLEAN, the span is scanned with
      -- the !isalpha condition, the type is then overwritten with
      -- JSON_STRING and as.boolean receives the strncmp result against
      -- "true" over the span's length; the arena stamp/rewind pair has no
      -- observable effect here
      match jsonScanNonAlpha lx.rest with
      | none => .div
      | some (sp, rest1) =>
        .ok (.mk .JSON_STRING (.boolean (cstrncmpEqZero sp (("true").toList) sp.length)),
             ⟨lx.content_len, rest1⟩)
    else if jsonPeek lx = obraceChar then
      -- object: the expect_char result is ignored by the source; the branch
      -- guard guarantees it succeeds and advances the cursor
      jsonParseObjectLoop fuel (jsonAdvance lx) ⟨0, .nil⟩
    else if jsonPeek lx = '[' then
      match json_lexer_expect_char lx '[' with
      | none => .fail
      | some lx1 => jsonParseArrayLoop fuel lx1 ⟨0, .nil⟩
    else .fail

/-- The `while (!json_is_empty(lexer))` item loop of the object branch. -/
def jsonParseObjectLoop : Nat → JsonLexer → JsonObject → PResult (JsonValue × JsonLexer)
  | 0, _, _ => .div
  | fuel + 1, lx, obj =>
    if json_is_empty lx then jsonFinishObject lx obj
    else
      match json_lexer_parse_object_item fuel lx with
      | .div => .div
      | .fail => .fail
      | .ok (kv, lx1) =>
        let obj1 := json_object_append obj kv.1 kv.2
        if jsonPeek lx1 = ',' then
          match json_lexer_expect_char lx1 ',' with
          | none => .fail
          | some lx2 => jsonParseObjectLoop fuel lx2 obj1
        else jsonFinishObject lx1 obj1

/-- The `while (!json_is_empty(lexer))` element loop of the array branch. -/
def jsonParseArrayLoop : Nat → JsonLexer → JsonArray → PResult (JsonValue × JsonLexer)
  | 0, _, _ => .div
  | fuel + 1, lx, arr =>
    if json_is_empty lx then jsonFinishArray lx arr
    else
      match json_lexer_parse_value fuel lx with
      | .div => .div
      | .fail => .fail
      | .ok (v, lx1) =>
        let arr1 := json_array_append arr v
        if jsonPeek lx1 = ',' then
          match json_lexer_expect_char lx1 ',' with
          | none => .fail
          | some lx2 => jsonParseArrayLoop fuel lx2 arr1
        else jsonFinishArray lx1 arr1

/-- `json_lexer_parse_object_item`: trim, quoted key, `:`, then a value. -/
def json_lexer_parse_object_item : Nat → JsonLexer →
    PResult ((List Char × JsonValue) × JsonLexer)
  | 0, _ => .div
  | fuel + 1, lx0 =>
    let lx := json_lexer_trim_left lx0
    match json_lexer_expect_char lx dquoteChar with
    | none => .fail
    | some lx1 =>
      match jsonScanUntil dquoteChar lx1.rest with
      | none => .div
      | some (key, rest1) =>
        match json_lexer_expect_char ⟨lx.content_len, rest1⟩ dquoteChar with
        | none => .fail
        | some lx2 =>
          match json_lexer_expect_char lx2 ':' with
          | none => .fail
          | some lx3 =>
            match json_lexer_parse_value fuel lx3 with
            | .div => .div
            | .fail => .fail
            | .ok (v, lx4) => .ok ((key, v), lx4)
end

-- ### main.c (src/main.c lines 8-32)

/-- The key `"products"` looked up by `main`. -/
def productsKey : List Char := ("products").toList

/-- `main`, as a function of the contents of `products.json` (`none` models
an unreadable file, where `ali_sb_read_file` returns false).  The result is
the process exit code; `none` is the unobservable case where parsing has no
result (fuel exhaustion / a scan off the buffer). -/
def mainModel (fuel : Nat) (file : Option (List Char)) : Option Nat :=
  match file with
  | none => some 1
  | some content =>
    match json_lexer_parse_value fuel (json_lexer content) with
    | .div => none
    | .fail => some 1
    | .ok (v, _) =>
      match json_value_as_object v with
      | none => some 1
      | some obj =>
        match json_object_find_value obj productsKey with
        | none => some 1
        | some pv =>
          match json_value_as_array pv with
          | none => some 1
          | some _ => some 0

-- #### Theorems for C1, C7, C10

def jsonInputBool : List Char := ("\x7b\"a\": true, \"b\": \"hi\"\x7d").toList

def jsonInputFalse : List Char := ("false").toList

/-- Claim C1: the boolean branch was claimed to produce a boolean-typed value
whose payload is true exactly when the captured span is literally `"true"`
(a genuine `"false"` evaluating to false), with `{"a": true, "b": "hi"}`
parsing successfully.  In the source the scan loop advances only over
NON-alphabetic characters, so on `t`/`f` it stops immediately: the captured
span is empty, `strncmp(span, "true", 0)` is always 0 (payload always true),
`value->type` is then overwritten with `JSON_STRING`, and the cursor does not
move — so parsing `{"a": true, ...}` fails when the object loop expects `}`
at the unconsumed `t`.  Parsing bare `false` yields a `JSON_STRING`-tagged
value with boolean payload `true` and an unmoved cursor: the value is
string-typed, not boolean-typed — `json_value_as_boolean` returns `NULL` on
it, while `json_value_as_string` returns a non-NULL pointer (one whose
target reinterprets the union's boolean member). -/
theorem json_bool_literal_behavior :
    json_lexer_parse_value 64 (json_lexer jsonInputBool) = .fail
    ∧ json_lexer_parse_value 64 (json_lexer jsonInputFalse) =
        .ok (.mk .JSON_STRING (.boolean true), ⟨5, ("false").toList⟩)
    ∧ json_value_as_boolean (.mk .JSON_STRING (.boolean true)) = none
    ∧ json_value_as_string (.mk .JSON_STRING (.boolean true)) = some none := by
  refine ⟨by decide, by decide, rfl, rfl⟩

def jsonInputProducts : List Char := ("\x7b\"products\": [1, 2, 3]\x7d").toList

def c7nodes : JsonNodeList :=
  .cons (json_value_number ⟨1, 1⟩)
    (.cons (json_value_number ⟨2, 1⟩) (.cons (json_value_number ⟨3, 1⟩) .nil))

def c7items : JsonItemList :=
  .cons (("products").toList) (.mk .JSON_ARRAY (.array 3 c7nodes)) .nil

/-- Claim C7: parsing `{"products": [1, 2, 3]}` succeeds and yields an object
whose key `"products"` maps to a 3-element array holding the numbers 1, 2 and
3 (exactly representable doubles), and `json_stringify` on each element
prints exactly `1.00`, `2.00`, `3.00`. -/
theorem json_products_roundtrip :
    json_lexer_parse_value 64 (json_lexer jsonInputProducts) =
      .ok (.mk .JSON_OBJECT (.object 1 c7items), ⟨23, []⟩)
    ∧ json_value_as_object (.mk .JSON_OBJECT (.object 1 c7items)) = some ⟨1, c7items⟩
    ∧ json_object_find_value ⟨1, c7items⟩ (("products").toList) =
        some (.mk .JSON_ARRAY (.array 3 c7nodes))
    ∧ json_value_as_array (.mk .JSON_ARRAY (.array 3 c7nodes)) = some ⟨3, c7nodes⟩
    ∧ json_array_get_item ⟨3, c7nodes⟩ 0 = .value (json_value_number ⟨1, 1⟩)
    ∧ json_array_get_item ⟨3, c7nodes⟩ 1 = .value (json_value_number ⟨2, 1⟩)
    ∧ json_array_get_item ⟨3, c7nodes⟩ 2 = .value (json_value_number ⟨3, 1⟩)
    ∧ json_stringify (json_value_number ⟨1, 1⟩) = some (("1.00").toList)
    ∧ json_stringify (json_value_number ⟨2, 1⟩) = some (("2.00").toList)
    ∧ json_stringify (json_value_number ⟨3, 1⟩) = some (("3.00").toList) := by
  decide

/-- The get-item walk never produces the guard's `absent`. -/
theorem jsonNodeWalk_ne_absent : ∀ (ns : JsonNodeList) (n : Nat), jsonNodeWalk ns n ≠ .absent
  | .nil, _ => by intro h; cases h
  | .cons _ _, 0 => by intro h; cases h
  | .cons _ r, n + 1 => jsonNodeWalk_ne_absent r n

theorem jsonItemWalk_ne_absent : ∀ (its : JsonItemList) (n : Nat), jsonItemWalk its n ≠ .absent
  | .nil, _ => by intro h; cases h
  | .cons _ _ _, 0 => by intro h; cases h
  | .cons _ _ r, n + 1 => jsonItemWalk_ne_absent r n

/-- In-range walks land on a node. -/
theorem jsonNodeWalk_value_of_lt :
    ∀ (ns : JsonNodeList) (n : Nat), n < jsonNodeLength ns → ∃ v, jsonNodeWalk ns n = .value v
  | .nil, n, h => absurd h (by simp [jsonNodeLength])
  | .cons v _, 0, _ => ⟨v, rfl⟩
  | .cons _ r, n + 1, h =>
    jsonNodeWalk_value_of_lt r n (by simpa [jsonNodeLength] using h)

theorem jsonItemWalk_value_of_lt :
    ∀ (its : JsonItemList) (n : Nat), n < jsonItemLength its → ∃ v, jsonItemWalk its n = .value v
  | .nil, n, h => absurd h (by simp [jsonItemLength])
  | .cons _ v _, 0, _ => ⟨v, rfl⟩
  | .cons _ _ r, n + 1, h =>
    jsonItemWalk_value_of_lt r n (by simpa [jsonItemLength] using h)

/-- Walking exactly the list's length runs off the `NULL` tail. -/
theorem jsonNodeWalk_at_length :
    ∀ (ns : JsonNodeList), jsonNodeWalk ns (jsonNodeLength ns) = .nullDeref
  | .nil => rfl
  | .cons _ r => jsonNodeWalk_at_length r

theorem jsonItemWalk_at_length :
    ∀ (its : JsonItemList), jsonItemWalk its (jsonItemLength its) = .nullDeref
  | .nil => rfl
  | .cons _ _ r => jsonItemWalk_at_length r

/-- Claim C10: in both `json_array_get_item` and `json_object_get_item` the
bounds guard rejects (returns the absent `NULL`) exactly the indices strictly
greater than the stored length; when the stored length matches the linked
list, an index strictly below it reaches a node, while an index equal to it
walks past the last node and forms the result from the `NULL` tail pointer
instead of returning absent. -/
theorem json_get_item_bounds :
    (∀ (a : JsonArray) (i : Nat), json_array_get_item a i = .absent ↔ a.len < i)
    ∧ (∀ (a : JsonArray) (i : Nat), a.len = jsonNodeLength a.next → i < a.len →
        ∃ v, json_array_get_item a i = .value v)
    ∧ (∀ (a : JsonArray), a.len = jsonNodeLength a.next →
        json_array_get_item a a.len = .nullDeref)
    ∧ (∀ (o : JsonObject) (i : Nat), json_object_get_item o i = .absent ↔ o.len < i)
    ∧ (∀ (o : JsonObject) (i : Nat), o.len = jsonItemLength o.next → i < o.len →
        ∃ v, json_object_get_item o i = .value v)
    ∧ (∀ (o : JsonObject), o.len = jsonItemLength o.next →
        json_object_get_item o o.len = .nullDeref) := by
  refine ⟨?_, ?_, ?_, ?_, ?_, ?_⟩
  · intro a i
    unfold json_array_get_item
    constructor
    · intro h
      by_contra hle
      rw [if_neg (by omega)] at h
      exact jsonNodeWalk_ne_absent a.next i h
    · intro h; rw [if_pos h]
  · intro a i hlen hi
    unfold json_array_get_item
    rw [if_neg (by omega)]
    exact jsonNodeWalk_value_of_lt a.next i (by omega)
  · intro a hlen
    unfold json_array_get_item
    rw [if_neg (by omega), hlen]
    exact jsonNodeWalk_at_length a.next
  · intro o i
    unfold json_object_get_item
    constructor
    · intro h
      by_contra hle
      rw [if_neg (by omega)] at h
      exact jsonItemWalk_ne_absent o.next i h
    · intro h; rw [if_pos h]
  · intro o i hlen hi
    unfold json_object_get_item
    rw [if_neg (by omega)]
    exact jsonItemWalk_value_of_lt o.next i (by omega)
  · intro o hlen
    unfold json_object_get_item
    rw [if_neg (by omega), hlen]
    exact jsonItemWalk_at_length o.next

/-- Witness for `json_get_item_bounds`: a one-element array and a one-item
object, where the index 1 (equal to the stored length) walks onto the `NULL`
tail, discharging the length-consistency hypotheses concretely. -/
theorem json_get_item_bounds_witness :
    json_array_get_item ⟨1, .cons (json_value_number ⟨1, 1⟩) .nil⟩ 1 = .nullDeref
    ∧ json_object_get_item ⟨1, .cons (("k").toList) (json_value_number ⟨1, 1⟩) .nil⟩ 1 =
        .nullDeref :=
  ⟨json_get_item_bounds.2.2.1 ⟨1, .cons (json_value_number ⟨1, 1⟩) .nil⟩ (by decide),
   json_get_item_bounds.2.2.2.2.2 ⟨1, .cons (("k").toList) (json_value_number ⟨1, 1⟩) .nil⟩
     (by decide)⟩

-- #### Theorem for C8

/-- Claim C8: `main` exits 0 exactly when the file is readable, its contents
parse as a JSON value, the top-level value is an object, the object contains
key `"products"`, and that key's value is an array; each of the five failure
cases exits 1.  Stated for every fuel bound and every file content. -/
theorem main_exit_codes (fuel : Nat) (file : Option (List Char)) :
    (mainModel fuel file = some 0 ↔
      ∃ c v lx obj pv arr,
        file = some c
        ∧ json_lexer_parse_value fuel (json_lexer c) = .ok (v, lx)
        ∧ json_value_as_object v = some obj
        ∧ json_object_find_value obj productsKey = some pv
        ∧ json_value_as_array pv = some arr)
    ∧ (mainModel fuel file = some 1 ↔
      (file = none
       ∨ ∃ c, file = some c ∧
         (json_lexer_parse_value fuel (json_lexer c) = .fail
          ∨ ∃ v lx, json_lexer_parse_value fuel (json_lexer c) = .ok (v, lx) ∧
            (json_value_as_object v = none
             ∨ ∃ obj, json_value_as_object v = some obj ∧
               (json_object_find_value obj productsKey = none
                ∨ ∃ pv, json_object_find_value obj productsKey = some pv ∧
                  json_value_as_array pv = none))))) := by
  cases file with
  | none => simp [mainModel]
  | some c =>
    cases hp : json_lexer_parse_value fuel (json_lexer c) with
    | ok p =>
      obtain ⟨v, lx⟩ := p
      cases ho : json_value_as_object v with
      | none => simp [mainModel, hp, ho]
      | some obj =>
        cases hf : json_object_find_value obj productsKey with
        | none => simp [mainModel, hp, ho, hf]
        | some pv =>
          cases ha : json_value_as_array pv with
          | none => simp [mainModel, hp, ho, hf, ha]
          | some arr => simp [mainModel, hp, ho, hf, ha]
    | fail => simp [mainModel, hp]
    | div => simp [mainModel, hp]
